import Mathlib

/-!
# Verification of the passage-pool rotation and persistence layer

Shallow embedding of the persistence and pool-rotation logic of the
English-reading-adventure application (source files `app.py` and `main.py`),
together with proofs of the specified properties.

* `app.py` persists passages and user progress to CSV files; the field-level
  codec joins vocabulary pairs with `,`/`:` and questions with `;`.
* `main.py` keeps a bounded rotating pool of passages in a JSON file and
  serves them round-robin, replacing a slot when the pool is full.

Python strings are modelled as Lean `String` (a structure wrapping
`List Char`); Python lists as `List`; Python dicts as association lists with
Python's insertion-order update semantics; file-system state as a
`FileState` that is either absent, present-but-unparseable (the parse
raises), or present with parsed content.
-/

/-! ## Python string primitives used by the source -/

/-- Python's single-character `s.split(c)` on a list of characters: `n`
separators yield `n + 1` (possibly empty) pieces. -/
def splitOnChar (c : Char) : List Char → List (List Char)
  | [] => [[]]
  | x :: xs =>
    if x = c then [] :: splitOnChar c xs
    else (x :: (splitOnChar c xs).headD []) :: (splitOnChar c xs).tail

/-- Inverse of `splitOnChar`: interleave the separator between the pieces. -/
def joinChars (c : Char) : List (List Char) → List Char
  | [] => []
  | [x] => x
  | x :: xs => x ++ c :: joinChars c xs

/-- Python `s.split(c)` for a single-character separator. -/
def pySplit (c : Char) (s : String) : List String :=
  (splitOnChar c s.data).map List.asString

/-- Python `c.join(xs)` for a single-character separator. -/
def pyJoin (c : Char) (xs : List String) : String :=
  (joinChars c (xs.map String.data)).asString

/-- Python `s.split(c, 1)` under the guarantee that `c` occurs in `s`:
the part before the first occurrence and the part after it. -/
def pySplitOnce (c : Char) (s : String) : String × String :=
  ((s.data.takeWhile (fun x => x ≠ c)).asString,
    (s.data.drop ((s.data.takeWhile (fun x => x ≠ c)).length + 1)).asString)

/-- Python `s.strip()`: remove leading and trailing whitespace. -/
def pyStrip (s : String) : String :=
  (((s.data.dropWhile Char.isWhitespace).reverse.dropWhile
      Char.isWhitespace).reverse).asString

/-- Python `c in s` for a character `c`. -/
def pyContains (c : Char) (s : String) : Bool :=
  s.data.contains c

/-- Python dict assignment `d[k] = v` on an insertion-ordered association
list: update in place when the key exists, append otherwise. -/
def dictInsert (d : List (String × String)) (k v : String) :
    List (String × String) :=
  if d.any (fun p => p.1 = k) then
    d.map (fun p => if p.1 = k then (k, v) else p)
  else
    d ++ [(k, v)]

/-! ## File-system state

A backing file is absent, present but unparseable (reading it makes the
parse raise, e.g. `json.JSONDecodeError` or a `KeyError` on a malformed
row), or present with well-formed parsed content `α`. -/

inductive FileState (α : Type) : Type where
  | absent : FileState α
  | corrupt : FileState α
  | wellFormed (content : α) : FileState α
deriving DecidableEq, Repr

/-! ## `app.py`: CSV record codec for passages

`save_passage_to_csv` (app.py:65-97) flattens one passage record into a CSV
row whose `vocabulary` cell is `','.join(f"{word}:{definition}")` and whose
`questions` cell is `';'.join(questions)`.  `load_passages_from_csv`
(app.py:29-63) parses the cells back.  The CSV cell layer itself
(`csv.DictWriter`/`csv.DictReader`) quotes embedded delimiters correctly and
is modelled as exact: a row is a record of its four cell strings. -/

structure CsvPassageRow where
  passage : String
  vocabulary : String
  questions : String
  createdAt : String
deriving DecidableEq, Repr

/-- An in-memory passage record as `app.py` handles it. -/
structure PassageRecord where
  passage : String
  vocabulary : List (String × String)
  questions : List String
  createdAt : String
deriving DecidableEq, Repr

/-- app.py:69 — `','.join([f"{word}:{definition}" for word, definition in vocab_dict.items()])`. -/
def encodeVocabField (vocab : List (String × String)) : String :=
  pyJoin ',' (vocab.map (fun p => p.1 ++ ":" ++ p.2))

/-- app.py:43-46 — the body of the vocabulary-parsing loop: for a piece
that contains `:`, split once on `:` and store the stripped
word/definition; other pieces are skipped. -/
def vocabStep (acc : List (String × String)) (pair : String) :
    List (String × String) :=
  if pyContains ':' pair then
    dictInsert acc (pyStrip (pySplitOnce ':' pair).1)
      (pyStrip (pySplitOnce ':' pair).2)
  else acc

/-- app.py:40-46 — split the vocabulary cell on `,` (only when the cell is
non-empty) and run the parsing loop starting from the empty dict. -/
def parseVocabField (s : String) : List (String × String) :=
  if s = "" then []
  else (pySplit ',' s).foldl vocabStep []

/-- app.py:72 — `';'.join(questions)`. -/
def encodeQuestionsField (questions : List String) : String :=
  pyJoin ';' questions

/-- app.py:49-51 — `[q.strip() for q in row['questions'].split(';') if q.strip()]`. -/
def parseQuestionsField (s : String) : List String :=
  if s = "" then []
  else ((pySplit ';' s).map pyStrip).filter (fun q => q ≠ "")

/-- app.py:65-92 — build the CSV row appended by `save_passage_to_csv`
(`created_at` is `datetime.now().isoformat()`, passed here as `now`). -/
def savePassageToCsv (passage : String) (vocab : List (String × String))
    (questions : List String) (now : String) : CsvPassageRow :=
  ⟨passage, encodeVocabField vocab, encodeQuestionsField questions, now⟩

/-- app.py:39-58 — the per-row decoding performed by `load_passages_from_csv`. -/
def parsePassageRow (row : CsvPassageRow) : PassageRecord :=
  ⟨row.passage, parseVocabField row.vocabulary,
    parseQuestionsField row.questions, row.createdAt⟩

/-- app.py:29-63 — `load_passages_from_csv`: absent file returns `[]`;
a file whose parse raises is caught by the bare `except`, an error message
is displayed (`st.error`, the `Bool` component) and `[]` is returned;
otherwise every row is decoded.  -/
def loadPassagesFromCsv (fs : FileState (List CsvPassageRow)) :
    List PassageRecord × Bool :=
  match fs with
  | .absent => ([], false)
  | .corrupt => ([], true)
  | .wellFormed rows => (rows.map parsePassageRow, false)

/-! ## `app.py`: CSV progress store -/

/-- One row of `user_progress.csv` (app.py:141-146): the numeric cells hold
decimal integers (written with `str`, read back with `int`, which is the
identity on natural numbers and is therefore modelled by keeping `Nat`). -/
structure ProgressRow where
  points : Nat
  passagesCompleted : Nat
  vocabLearned : String
  lastUpdated : String
deriving DecidableEq, Repr

/-- The progress triple `load_user_progress_from_csv` returns. -/
structure ProgressState where
  points : Nat
  passagesCompleted : Nat
  vocabLearned : List String
deriving DecidableEq, Repr

/-- app.py:134-163 — `save_user_progress_to_csv` appends one row (vocabulary
joined with `,`) to the existing rows, writing the header first when the
file is new. -/
def saveUserProgressToCsv (rows : List ProgressRow) (points : Nat)
    (passagesCompleted : Nat) (vocabLearned : List String) (now : String) :
    List ProgressRow :=
  rows ++ [⟨points, passagesCompleted, pyJoin ',' vocabLearned, now⟩]

/-- app.py:99-132 — `load_user_progress_from_csv`: absent file or a parse
failure (caught by the bare `except`) or an empty row list all yield zero
progress; otherwise the LAST row wins, with the vocabulary cell split on `,`
when non-empty. -/
def loadUserProgressFromCsv (fs : FileState (List ProgressRow)) :
    ProgressState :=
  match fs with
  | .absent => ⟨0, 0, []⟩
  | .corrupt => ⟨0, 0, []⟩
  | .wellFormed rows =>
    match rows.getLast? with
    | some latest =>
      ⟨latest.points, latest.passagesCompleted,
        if latest.vocabLearned ≠ "" then pySplit ',' latest.vocabLearned
        else []⟩
    | none => ⟨0, 0, []⟩

/-! ## `main.py`: JSON passage pool and its rotation

`main.py` stores the pool in `data/passages.json` as an object with keys
`passages`, `current_index`, `last_updated`, `total_passages`.  Each stored
passage is a dict with `passage`, `vocabulary`, `questions`, `quiz`,
`status`, `created_at`, `id`; the pool logic only reads/writes `id`. -/

structure QuizOptionR where
  option : String
  isCorrect : Bool
deriving DecidableEq, Repr, Inhabited

structure QuizQuestionR where
  question : String
  options : List QuizOptionR
deriving DecidableEq, Repr, Inhabited

/-- One passage record of the JSON pool (main.py:128-134, 107-108). -/
structure LearningUnit where
  passage : String
  vocabulary : List (String × String)
  questions : List String
  quiz : List QuizQuestionR
  status : String
  createdAt : String
  id : Nat
deriving DecidableEq, Repr, Inhabited

/-- The parsed content of `passages.json` (main.py:76-81). -/
structure PoolFile where
  passages : List LearningUnit
  currentIndex : Nat
  lastUpdated : String
  totalPassages : Nat
deriving DecidableEq, Repr

/-- The error with which a load on an unparseable file fails (the
uncaught `json.JSONDecodeError` propagating out of `json.load`). -/
inductive StoreError : Type where
  | storeCorrupt : StoreError
deriving DecidableEq, Repr

/-- main.py:66-72 — `load_passages_data`: absent file yields `([], 0)`;
an unparseable file makes `json.load` raise (nothing catches it);
otherwise `data.get('passages', []), data.get('current_index', 0)`. -/
def loadPassagesData (fs : FileState PoolFile) :
    Except StoreError (List LearningUnit × Nat) :=
  match fs with
  | .absent => .ok ([], 0)
  | .corrupt => .error .storeCorrupt
  | .wellFormed f => .ok (f.passages, f.currentIndex)

/-- main.py:74-84 — `save_passages_data(passages, current_index)` writes the
whole file, stamping `last_updated = datetime.now().isoformat()` (passed
here as `now`) and `total_passages = len(passages)`. -/
def savePassagesData (passages : List LearningUnit) (currentIndex : Nat)
    (now : String) : PoolFile :=
  ⟨passages, currentIndex, now, passages.length⟩

/-- main.py:86-100 — `get_next_passage`: load; on an empty pool return
`(None, 0)` without saving; otherwise return `passages[current_index]`
together with the served index, and save the pool with the advanced index
`(current_index + 1) % len(passages)`.  `passages[current_index]` is an
in-range access in every state the application reaches (the cursor
invariant `current_index < len(passages)` holds after every save); it is
modelled totally with `List.getD`. -/
def getNextPassage (fs : FileState PoolFile) (now : String) :
    Except StoreError ((Option LearningUnit × Nat) × FileState PoolFile) :=
  match loadPassagesData fs with
  | .error e => .error e
  | .ok (passages, currentIndex) =>
    if passages.isEmpty then .ok ((none, 0), fs)
    else
      let currentPassage := passages.getD currentIndex default
      let nextIndex := (currentIndex + 1) % passages.length
      .ok ((some currentPassage, currentIndex),
        .wellFormed (savePassagesData passages nextIndex now))

/-- main.py:59 — `MAX_PASSAGES = 5`. -/
def MAX_PASSAGES : Nat := 5

/-- main.py:102-119 — `add_or_replace_passage`, with the pool capacity
(`MAX_PASSAGES` in the source) as an explicit parameter: load; stamp the
draft with `created_at = now` and
`id = len(passages) + 1 if len(passages) < cap else passages[0]['id'] + cap`;
append while below capacity, otherwise overwrite the slot
`(current_index + len(passages) - 1) % len(passages)`; save with the loaded
(unchanged) `current_index` and return the new id.  In the full branch the
pool is non-empty for every positive capacity, so `passages[0]` is modelled
with `List.headD`. -/
def addOrReplacePassageCap (cap : Nat) (fs : FileState PoolFile)
    (draft : LearningUnit) (now : String) :
    Except StoreError (Nat × FileState PoolFile) :=
  match loadPassagesData fs with
  | .error e => .error e
  | .ok (passages, currentIndex) =>
    let newId :=
      if passages.length < cap then passages.length + 1
      else (passages.headD default).id + cap
    let newRec := { draft with createdAt := now, id := newId }
    let passages' :=
      if passages.length < cap then passages ++ [newRec]
      else
        passages.set
          ((currentIndex + passages.length - 1) % passages.length) newRec
    .ok (newId, .wellFormed (savePassagesData passages' currentIndex now))

/-- main.py:102-119 — `add_or_replace_passage` as in the source, with the
capacity fixed to `MAX_PASSAGES`. -/
def addOrReplacePassage (fs : FileState PoolFile) (draft : LearningUnit)
    (now : String) : Except StoreError (Nat × FileState PoolFile) :=
  addOrReplacePassageCap MAX_PASSAGES fs draft now

/-- `n` successive `get_next_passage` calls: the list of served results and
the final store state (an error from any call propagates). -/
def fetchSeq (fs : FileState PoolFile) (now : String) :
    Nat → Except StoreError (List (Option LearningUnit) × FileState PoolFile)
  | 0 => .ok ([], fs)
  | Nat.succ n =>
    match getNextPassage fs now with
    | .error e => .error e
    | .ok (r, fs') =>
      match fetchSeq fs' now n with
      | .error e => .error e
      | .ok (rs, fs'') => .ok (r.1 :: rs, fs'')

/-! ## `main.py`: JSON progress store -/

/-- The parsed content of `user_progress.json` (main.py:186-192). -/
structure UserProgress where
  points : Nat
  passagesCompleted : Nat
  vocabLearned : List String
  quizScores : List Nat
  lastUpdated : String
deriving DecidableEq, Repr

/-- main.py:181-192 — `load_user_progress`: absent file yields the zero
record stamped `last_updated = datetime.now().isoformat()` (passed as
`now`); an unparseable file makes `json.load` raise; otherwise the parsed
record is returned. -/
def loadUserProgress (fs : FileState UserProgress) (now : String) :
    Except StoreError UserProgress :=
  match fs with
  | .absent => .ok ⟨0, 0, [], [], now⟩
  | .corrupt => .error .storeCorrupt
  | .wellFormed p => .ok p

/-! ## Vocabulary learning step

main.py:473-475 (identically app.py:392-394): when a displayed word is not
yet in `vocab_learned`, it is appended and 5 bonus points are awarded;
otherwise nothing happens.  The returned `Bool` records which branch ran
(award-eligible or no-op). -/

def learnWord (vocabLearned : List String) (points : Nat) (word : String) :
    Bool × List String × Nat :=
  if word ∉ vocabLearned then (true, vocabLearned ++ [word], points + 5)
  else (false, vocabLearned, points)

/-! ## Helper lemmas: split/join round trips -/

theorem splitOnChar_ne_nil (c : Char) (l : List Char) : splitOnChar c l ≠ [] := by
  cases l with
  | nil => simp [splitOnChar]
  | cons x xs =>
    simp only [splitOnChar]
    split_ifs <;> simp

theorem splitOnChar_of_not_mem (c : Char) :
    ∀ {l : List Char}, c ∉ l → splitOnChar c l = [l] := by
  intro l
  induction l with
  | nil => intro _; rfl
  | cons x xs ih =>
    intro h
    have hx : ¬x = c := fun e => h (e ▸ List.mem_cons_self x xs)
    have hxs : c ∉ xs := fun hm => h (List.mem_cons_of_mem _ hm)
    simp [splitOnChar, ih hxs, hx]

theorem splitOnChar_append_cons (c : Char) {l₁ : List Char} (l₂ : List Char)
    (h : c ∉ l₁) : splitOnChar c (l₁ ++ c :: l₂) = l₁ :: splitOnChar c l₂ := by
  induction l₁ with
  | nil => simp [splitOnChar]
  | cons x xs ih =>
    have hx : ¬x = c := fun e => h (e ▸ List.mem_cons_self x xs)
    have hxs : c ∉ xs := fun hm => h (List.mem_cons_of_mem _ hm)
    simp [splitOnChar, ih hxs, hx]

theorem splitOnChar_joinChars (c : Char) :
    ∀ {L : List (List Char)}, L ≠ [] → (∀ l ∈ L, c ∉ l) →
      splitOnChar c (joinChars c L) = L
  | [], h, _ => absurd rfl h
  | [x], _, h => by
    simp only [joinChars]
    exact splitOnChar_of_not_mem c (h x (by simp))
  | x :: y :: ys, _, h => by
    simp only [joinChars]
    rw [splitOnChar_append_cons c _ (h x (by simp))]
    rw [splitOnChar_joinChars c (by simp)
      (fun l hl => h l (List.mem_cons_of_mem _ hl))]

theorem pySplit_pyJoin (c : Char) {xs : List String} (hne : xs ≠ [])
    (h : ∀ s ∈ xs, c ∉ s.data) : pySplit c (pyJoin c xs) = xs := by
  unfold pySplit pyJoin
  have hdata : (List.asString (joinChars c (xs.map String.data))).data =
      joinChars c (xs.map String.data) := rfl
  rw [hdata, splitOnChar_joinChars c (by simp [hne])
    (by
      intro l hl
      obtain ⟨s, hs, rfl⟩ := List.mem_map.mp hl
      exact h s hs)]
  rw [List.map_map]
  have hcomp : (List.asString ∘ String.data) = id := funext fun s => rfl
  rw [hcomp, List.map_id]

theorem pyJoin_singleton (c : Char) (x : String) : pyJoin c [x] = x := rfl

theorem pyJoin_ne_empty (c : Char) (x : String) (xs : List String)
    (hx : x ≠ "") : pyJoin c (x :: xs) ≠ "" := by
  cases xs with
  | nil => rw [pyJoin_singleton]; exact hx
  | cons y ys =>
    intro hc
    have hd : x.data ++ c :: joinChars c (y.data :: ys.map String.data) =
        ([] : List Char) := congrArg String.data hc
    simp at hd

theorem takeWhile_append_cons {p : Char → Bool} {l₁ : List Char} (a : Char)
    (l₂ : List Char) (h₁ : ∀ x ∈ l₁, p x = true) (ha : p a = false) :
    (l₁ ++ a :: l₂).takeWhile p = l₁ := by
  induction l₁ with
  | nil => simp [List.takeWhile_cons, ha]
  | cons x xs ih =>
    have hx := h₁ x (List.mem_cons_self x xs)
    simp [List.cons_append, List.takeWhile_cons, hx,
      ih (fun y hy => h₁ y (List.mem_cons_of_mem _ hy))]

theorem drop_length_append_cons (l₁ : List Char) (a : Char) (l₂ : List Char) :
    (l₁ ++ a :: l₂).drop (l₁.length + 1) = l₂ := by
  have h1 : l₁ ++ a :: l₂ = (l₁ ++ [a]) ++ l₂ := by simp
  have h2 : l₁.length + 1 = (l₁ ++ [a]).length := by simp
  rw [h1, h2]
  exact List.drop_left _ _

theorem data_append_colon (w d : String) :
    (w ++ ":" ++ d).data = w.data ++ ':' :: d.data := by
  rw [String.data_append, String.data_append, List.append_assoc]
  rfl

theorem pySplitOnce_colon (w d : String) (hw : ':' ∉ w.data) :
    pySplitOnce ':' (w ++ ":" ++ d) = (w, d) := by
  unfold pySplitOnce
  rw [data_append_colon]
  have ht : (w.data ++ ':' :: d.data).takeWhile (fun x => x ≠ ':') = w.data := by
    apply takeWhile_append_cons
    · intro x hx
      simp only [ne_eq, decide_eq_true_eq]
      exact fun e => hw (e ▸ hx)
    · simp
  rw [ht, drop_length_append_cons]
  rfl

theorem pyContains_colon_encode (w d : String) :
    pyContains ':' (w ++ ":" ++ d) = true := by
  unfold pyContains
  rw [data_append_colon]
  simp

theorem dictInsert_of_fresh {d : List (String × String)} {k : String}
    (v : String) (h : k ∉ d.map Prod.fst) : dictInsert d k v = d ++ [(k, v)] := by
  have hc : d.any (fun p => p.1 = k) = false := by
    simp only [List.any_eq_false, decide_eq_true_eq]
    intro p hp e
    exact h (List.mem_map.mpr ⟨p, hp, e⟩)
  simp [dictInsert, hc]

theorem vocabStep_encode (acc : List (String × String)) (w d : String)
    (hwc : ':' ∉ w.data) (hsw : pyStrip w = w) (hsd : pyStrip d = d)
    (hfresh : w ∉ acc.map Prod.fst) :
    vocabStep acc (w ++ ":" ++ d) = acc ++ [(w, d)] := by
  unfold vocabStep
  rw [if_pos (pyContains_colon_encode w d), pySplitOnce_colon w d hwc]
  dsimp only
  rw [hsw, hsd]
  exact dictInsert_of_fresh d hfresh

theorem foldl_vocabStep_encode :
    ∀ (ps acc : List (String × String)),
      (∀ p ∈ ps, ':' ∉ p.1.data ∧ pyStrip p.1 = p.1 ∧ pyStrip p.2 = p.2) →
      (ps.map Prod.fst).Nodup →
      (∀ p ∈ ps, p.1 ∉ acc.map Prod.fst) →
      (ps.map (fun p => p.1 ++ ":" ++ p.2)).foldl vocabStep acc = acc ++ ps
  | [], acc, _, _, _ => by simp
  | p :: ps, acc, h, hnd, hfresh => by
    have hp := h p (List.mem_cons_self p ps)
    have hnd' : p.1 ∉ ps.map Prod.fst ∧ (ps.map Prod.fst).Nodup := by
      simp only [List.map_cons, List.nodup_cons] at hnd
      exact hnd
    simp only [List.map_cons, List.foldl_cons]
    rw [vocabStep_encode acc p.1 p.2 hp.1 hp.2.1 hp.2.2
      (hfresh p (List.mem_cons_self p ps))]
    rw [foldl_vocabStep_encode ps (acc ++ [(p.1, p.2)])
      (fun q hq => h q (List.mem_cons_of_mem _ hq))
      hnd'.2
      (fun q hq => by
        have h1 : q.1 ∉ acc.map Prod.fst :=
          hfresh q (List.mem_cons_of_mem _ hq)
        have h2 : q.1 ≠ p.1 :=
          fun e => hnd'.1 (e ▸ List.mem_map.mpr ⟨q, hq, rfl⟩)
        simp only [List.map_append, List.mem_append, List.map_cons,
          List.map_nil, List.mem_singleton]
        rintro (hc | hc)
        · exact h1 hc
        · exact h2 hc)]
    simp

theorem parseVocabField_encode (vocab : List (String × String))
    (h : ∀ p ∈ vocab, ',' ∉ p.1.data ∧ ':' ∉ p.1.data ∧ pyStrip p.1 = p.1 ∧
      ',' ∉ p.2.data ∧ pyStrip p.2 = p.2)
    (hnd : (vocab.map Prod.fst).Nodup) :
    parseVocabField (encodeVocabField vocab) = vocab := by
  cases vocab with
  | nil => rfl
  | cons p ps =>
    have hne : encodeVocabField (p :: ps) ≠ "" := by
      unfold encodeVocabField
      simp only [List.map_cons]
      apply pyJoin_ne_empty
      intro hc
      have hd : (p.1 ++ ":" ++ p.2).data = ([] : List Char) :=
        congrArg String.data hc
      rw [data_append_colon] at hd
      simp at hd
    unfold parseVocabField
    rw [if_neg hne]
    unfold encodeVocabField
    rw [pySplit_pyJoin ',' (by simp)
      (by
        intro s hs
        obtain ⟨q, hq, rfl⟩ := List.mem_map.mp hs
        rw [data_append_colon]
        simp only [List.mem_append, List.mem_cons]
        rintro (hc | hc | hc)
        · exact (h q hq).1 hc
        · exact absurd hc (by decide)
        · exact (h q hq).2.2.2.1 hc)]
    rw [foldl_vocabStep_encode (p :: ps) []
      (fun q hq => ⟨(h q hq).2.1, (h q hq).2.2.1, (h q hq).2.2.2.2⟩)
      hnd (fun q hq => by simp)]
    simp

theorem parseQuestionsField_encode (qs : List String)
    (h : ∀ q ∈ qs, ';' ∉ q.data ∧ pyStrip q = q ∧ q ≠ "") :
    parseQuestionsField (encodeQuestionsField qs) = qs := by
  cases qs with
  | nil => rfl
  | cons q qs' =>
    have hne : encodeQuestionsField (q :: qs') ≠ "" :=
      pyJoin_ne_empty ';' q qs' (h q (List.mem_cons_self q qs')).2.2
    unfold parseQuestionsField
    rw [if_neg hne]
    unfold encodeQuestionsField
    rw [pySplit_pyJoin ';' (by simp) (fun s hs => (h s hs).1)]
    have hmap : (q :: qs').map pyStrip = q :: qs' := by
      conv_rhs => rw [← List.map_id (q :: qs')]
      exact List.map_congr_left (fun x hx => (h x hx).2.1)
    rw [hmap]
    apply List.filter_eq_self.mpr
    intro a ha
    simp only [ne_eq, decide_eq_true_eq]
    exact (h a ha).2.2

/-! ## Helper lemmas: pool rotation -/

theorem getD_set_ne (l : List LearningUnit) (i j : Nat) (a : LearningUnit)
    (h : i ≠ j) : (l.set i a).getD j default = l.getD j default := by
  simp [List.getD_eq_getElem?_getD, List.getElem?_set_ne h]

/-- One `get_next_passage` call on a stored non-empty pool: it serves
`passages[current_index]` and saves the pool unchanged with the advanced
cursor. -/
theorem getNextPassage_step (us : List LearningUnit) (c : Nat) (lu : String)
    (tp : Nat) (now : String) (h : us ≠ []) :
    getNextPassage (.wellFormed ⟨us, c, lu, tp⟩) now =
      .ok ((some (us.getD c default), c),
        .wellFormed ⟨us, (c + 1) % us.length, now, us.length⟩) := by
  have hne : us.isEmpty = false := by
    cases us with
    | nil => exact absurd rfl h
    | cons a l => rfl
  simp [getNextPassage, loadPassagesData, savePassagesData, hne]

/-- `n` successive `get_next_passage` calls starting from a stored pool with
an in-range cursor `c` serve `passages[(c + i) % len]` for `i = 0 … n-1` and
leave the pool unchanged with cursor `(c + n) % len`. -/
theorem fetchSeq_wellFormed (us : List LearningUnit) (now : String) (n : Nat) :
    ∀ (c : Nat) (lu : String) (tp : Nat), c < us.length →
      ∃ lu' tp', fetchSeq (.wellFormed ⟨us, c, lu, tp⟩) now n =
        .ok (((List.range n).map
            fun i => some (us.getD ((c + i) % us.length) default)),
          .wellFormed ⟨us, (c + n) % us.length, lu', tp'⟩) := by
  induction n with
  | zero =>
    intro c lu tp hc
    exact ⟨lu, tp, by simp [fetchSeq, Nat.mod_eq_of_lt hc]⟩
  | succ n ih =>
    intro c lu tp hc
    have hlen : 0 < us.length := Nat.lt_of_le_of_lt (Nat.zero_le c) hc
    have hne : us ≠ [] := by
      intro e
      rw [e] at hlen
      simp at hlen
    have hc' : (c + 1) % us.length < us.length := Nat.mod_lt _ hlen
    obtain ⟨lu', tp', hrec⟩ := ih ((c + 1) % us.length) now us.length hc'
    refine ⟨lu', tp', ?_⟩
    simp only [fetchSeq]
    rw [getNextPassage_step us c lu tp now hne]
    dsimp only
    rw [hrec]
    dsimp only
    have hcur : ((c + 1) % us.length + n) % us.length =
        (c + (n + 1)) % us.length := by
      rw [Nat.mod_add_mod]
      congr 1
      omega
    have hlist : some (us.getD c default) :: ((List.range n).map
        fun i => some (us.getD (((c + 1) % us.length + i) % us.length)
          default)) =
        (List.range (n + 1)).map
          fun i => some (us.getD ((c + i) % us.length) default) := by
      rw [List.range_succ_eq_map, List.map_cons, List.map_map]
      congr 1
      · rw [Nat.add_zero, Nat.mod_eq_of_lt hc]
      · apply List.map_congr_left
        intro i _
        simp only [Function.comp_apply]
        rw [Nat.mod_add_mod]
        congr 3
        omega
    rw [hcur, hlist]

/-- One `add_or_replace_passage` call on a stored pool at capacity: the new
unit gets id `passages[0].id + cap`, overwrites the slot
`(current_index + len - 1) % len`, and the cursor is saved unchanged. -/
theorem addOrReplace_step_full (cap : Nat) (us : List LearningUnit)
    (c : Nat) (lu : String) (tp : Nat) (draft : LearningUnit) (now : String)
    (hlen : us.length = cap) (_hpos : 0 < cap) :
    addOrReplacePassageCap cap (.wellFormed ⟨us, c, lu, tp⟩) draft now =
      .ok ((us.headD default).id + cap,
        .wellFormed ⟨us.set ((c + us.length - 1) % us.length)
            { draft with
              createdAt := now,
              id := (us.headD default).id + cap },
          c, now, us.length⟩) := by
  have hnotlt : ¬us.length < cap := by omega
  simp only [addOrReplacePassageCap, loadPassagesData, savePassagesData,
    hnotlt, if_false, ite_false]
  rw [List.length_set]

/-- One `add_or_replace_passage` call on a stored pool below capacity: the
new unit gets id `len + 1` and is appended; the cursor is saved unchanged. -/
theorem addOrReplace_step_append (cap : Nat) (us : List LearningUnit)
    (c : Nat) (lu : String) (tp : Nat) (draft : LearningUnit) (now : String)
    (hlen : us.length < cap) :
    addOrReplacePassageCap cap (.wellFormed ⟨us, c, lu, tp⟩) draft now =
      .ok (us.length + 1,
        .wellFormed ⟨us ++ [{ draft with
            createdAt := now,
            id := us.length + 1 }],
          c, now, us.length + 1⟩) := by
  simp only [addOrReplacePassageCap, loadPassagesData, savePassagesData,
    hlen, if_true, ite_true]
  simp

/-! ## Sample data for concrete scenarios -/

/-- A concrete learning unit whose content fields are inert markers. -/
def poolUnit (s t : String) (i : Nat) : LearningUnit :=
  ⟨s, [], [], [], "complete", t, i⟩

def unitA : LearningUnit := poolUnit "A" "tA" 1
def unitB : LearningUnit := poolUnit "B" "tB" 2
def unitC : LearningUnit := poolUnit "C" "tC" 3

def u1 : LearningUnit := poolUnit "U1" "t1" 1
def u2 : LearningUnit := poolUnit "U2" "t2" 2
def u3 : LearningUnit := poolUnit "U3" "t3" 3
def u4 : LearningUnit := poolUnit "U4" "t4" 4
def u5 : LearningUnit := poolUnit "U5" "t5" 5
def u6 : LearningUnit := poolUnit "U6" "t6" 6

/-- A full capacity-5 pool with units `U1 … U5` carrying ids `1 … 5`. -/
def fullPool5 : List LearningUnit := [u1, u2, u3, u4, u5]

/-- `fullPool5` after `U6` (id 6) has replaced slot 0. -/
def pool6 : List LearningUnit := [u6, u2, u3, u4, u5]

/-! ## Claims -/

/-- C1 (counterexample): the codec does not escape embedded delimiters.
A definition containing a comma is corrupted: encoding the record whose
only vocabulary entry is `("w", "a,b")` and decoding it back yields
`("w", "a")` — the decoded record differs from the original. -/
theorem codec_roundTrip_cex :
    parsePassageRow (savePassageToCsv "p" [("w", "a,b")] [] "t") ≠
      ⟨"p", [("w", "a,b")], [], "t"⟩ := by decide

/-- C1 (amended): decoding the encoded form returns the original record
for every record whose vocabulary words contain no comma and no colon,
whose definitions contain no comma, whose words and definitions carry no
leading/trailing whitespace, whose words are pairwise distinct, and whose
questions contain no semicolon, carry no leading/trailing whitespace and
are non-empty.  Records with embedded delimiters are NOT protected: the
codec performs no escaping (see the counterexample). -/
theorem codec_roundTrip_amended (passage : String)
    (vocab : List (String × String)) (qs : List String) (now : String)
    (hv : ∀ p ∈ vocab, ',' ∉ p.1.data ∧ ':' ∉ p.1.data ∧
      pyStrip p.1 = p.1 ∧ ',' ∉ p.2.data ∧ pyStrip p.2 = p.2)
    (hnd : (vocab.map Prod.fst).Nodup)
    (hq : ∀ q ∈ qs, ';' ∉ q.data ∧ pyStrip q = q ∧ q ≠ "") :
    parsePassageRow (savePassageToCsv passage vocab qs now) =
      ⟨passage, vocab, qs, now⟩ := by
  unfold parsePassageRow savePassageToCsv
  dsimp only
  rw [parseVocabField_encode vocab hv hnd, parseQuestionsField_encode qs hq]

/-- C1 (witness): the amended round trip evaluated on a concrete
delimiter-free record. -/
theorem codec_roundTrip_amended_witness :
    parsePassageRow (savePassageToCsv "The sun is a star."
        [("orbit", "a path around a planet")] ["What is the sun?"]
        "2024-01-01") =
      ⟨"The sun is a star.", [("orbit", "a path around a planet")],
        ["What is the sun?"], "2024-01-01"⟩ :=
  codec_roundTrip_amended "The sun is a star."
    [("orbit", "a path around a planet")] ["What is the sun?"] "2024-01-01"
    (by decide) (by decide) (by decide)

/-- C6: loading from an absent backing file yields the empty pool
`([], 0)` and the zero progress record, through the normal (non-error)
result path. -/
theorem absent_store_defaults (now : String) :
    loadPassagesData .absent = .ok ([], 0) ∧
    loadUserProgress .absent now = .ok ⟨0, 0, [], [], now⟩ :=
  ⟨rfl, rfl⟩

/-- C7 (counterexample): the CSV loader of `app.py` returns on a corrupt
(existing but unparseable) file exactly the same default passage list as on
an absent file — the corrupt-file outcome is not distinct from the
absent-file outcome and no error is raised, contrary to the claim. -/
theorem corrupt_store_cex :
    (loadPassagesFromCsv .corrupt).1 = (loadPassagesFromCsv .absent).1 :=
  rfl

/-- C7 (amended): the two stores diverge.  The JSON store of `main.py`
fails on an unparseable file (the parse error propagates — modelled
`StoreError.storeCorrupt`), distinct from the absent-file default; the CSV
store of `app.py` instead catches the parse failure, displays an error
message (the `true` flag), and returns the same empty default as the
absent-file case. -/
theorem corrupt_store_amended :
    loadPassagesData .corrupt = .error .storeCorrupt ∧
    loadPassagesData .absent = .ok ([], 0) ∧
    loadPassagesFromCsv .corrupt = ([], true) ∧
    loadPassagesFromCsv .absent = ([], false) :=
  ⟨rfl, rfl, rfl, rfl⟩

/-- C8: learning a word is idempotent.  A word not yet learned is appended
and awards the 5-point bonus (branch taken = `true`); repeating the same
word is a no-op returning `false`; after the two calls the word occurs
exactly once and the bonus was granted exactly once; a word already present
is always a no-op. -/
theorem learnWord_idempotent (vocab : List String) (points : Nat)
    (w : String) (h : w ∉ vocab) :
    learnWord vocab points w = (true, vocab ++ [w], points + 5) ∧
    learnWord (vocab ++ [w]) (points + 5) w =
      (false, vocab ++ [w], points + 5) ∧
    (vocab ++ [w]).count w = 1 ∧
    (∀ vocab2 points2, w ∈ vocab2 →
      learnWord vocab2 points2 w = (false, vocab2, points2)) := by
  refine ⟨?_, ?_, ?_, ?_⟩
  · unfold learnWord
    rw [if_pos h]
  · unfold learnWord
    rw [if_neg (by simp)]
  · simp [List.count_append, List.count_eq_zero.mpr h]
  · intro v2 p2 hmem
    unfold learnWord
    rw [if_neg (fun hc => hc hmem)]

/-- C8 (witness): learning `"orbit"` twice from a fresh state. -/
theorem learnWord_idempotent_witness :
    learnWord [] 0 "orbit" = (true, [] ++ ["orbit"], 0 + 5) ∧
    learnWord ([] ++ ["orbit"]) (0 + 5) "orbit" =
      (false, [] ++ ["orbit"], 0 + 5) ∧
    (([] : List String) ++ ["orbit"]).count "orbit" = 1 ∧
    (∀ vocab2 points2, "orbit" ∈ vocab2 →
      learnWord vocab2 points2 "orbit" = (false, vocab2, points2)) :=
  learnWord_idempotent [] 0 "orbit" (by decide)

/-- C9: the progress store is append-only with last-row-wins semantics.
Saving appends one encoded row, preserving all earlier rows, and an
immediate load returns exactly the saved values — for any prior history —
provided the learned words are non-empty and comma-free. -/
theorem progress_append_last_row_wins (hist : List ProgressRow)
    (points passagesCompleted : Nat) (vl : List String) (now : String)
    (h : ∀ w ∈ vl, w ≠ "" ∧ ',' ∉ w.data) :
    saveUserProgressToCsv hist points passagesCompleted vl now =
      hist ++ [⟨points, passagesCompleted, pyJoin ',' vl, now⟩] ∧
    loadUserProgressFromCsv (.wellFormed
        (saveUserProgressToCsv hist points passagesCompleted vl now)) =
      ⟨points, passagesCompleted, vl⟩ := by
  refine ⟨rfl, ?_⟩
  unfold saveUserProgressToCsv loadUserProgressFromCsv
  dsimp only
  rw [List.getLast?_concat]
  dsimp only
  cases vl with
  | nil =>
    have h0 : pyJoin ',' ([] : List String) = "" := rfl
    rw [if_neg (by simp [h0])]
  | cons w ws =>
    have hne : pyJoin ',' (w :: ws) ≠ "" :=
      pyJoin_ne_empty ',' w ws (h w (List.mem_cons_self w ws)).1
    rw [if_pos hne, pySplit_pyJoin ',' (by simp) (fun s hs => (h s hs).2)]

/-- C9 (witness): a save on top of an existing history followed by a load. -/
theorem progress_append_last_row_wins_witness :
    saveUserProgressToCsv [⟨1, 1, "old", "t0"⟩] 100 5 ["word1", "word2"]
        "t1" =
      [⟨1, 1, "old", "t0"⟩] ++ [⟨100, 5, pyJoin ',' ["word1", "word2"],
        "t1"⟩] ∧
    loadUserProgressFromCsv (.wellFormed (saveUserProgressToCsv
        [⟨1, 1, "old", "t0"⟩] 100 5 ["word1", "word2"] "t1")) =
      ⟨100, 5, ["word1", "word2"]⟩ :=
  progress_append_last_row_wins [⟨1, 1, "old", "t0"⟩] 100 5
    ["word1", "word2"] "t1" (by decide)

/-- C2: rotation order of `get_next_passage`.  Every call on a stored
non-empty pool returns `units[cursor]` and saves the pool with cursor
advanced to `(cursor + 1) % k`; starting from cursor `0`, the `i`-th of `n`
successive calls returns `units[i % k]` — so the `k` units are served
exactly once each, in insertion order, before the cycle repeats. -/
theorem fetch_rotation_order (us : List LearningUnit) (lu : String)
    (tp : Nat) (now : String) (n : Nat) (h : us ≠ []) :
    (∀ c, c < us.length →
      getNextPassage (FileState.wellFormed ⟨us, c, lu, tp⟩) now =
        .ok ((some (us.getD c default), c),
          .wellFormed ⟨us, (c + 1) % us.length, now, us.length⟩)) ∧
    (∃ lu' tp', fetchSeq (FileState.wellFormed ⟨us, 0, lu, tp⟩) now n =
      .ok (((List.range n).map
          fun i => some (us.getD (i % us.length) default)),
        .wellFormed ⟨us, n % us.length, lu', tp'⟩)) := by
  have hlen : 0 < us.length := List.length_pos.mpr h
  constructor
  · intro c _
    exact getNextPassage_step us c lu tp now h
  · obtain ⟨lu', tp', hh⟩ := fetchSeq_wellFormed us now n 0 lu tp hlen
    refine ⟨lu', tp', ?_⟩
    simpa using hh

/-- C2 (witness): the pool `[A, B, C]` with cursor 0 served six times. -/
theorem fetch_rotation_order_witness :
    (∀ c, c < [unitA, unitB, unitC].length →
      getNextPassage (FileState.wellFormed ⟨[unitA, unitB, unitC], c, "lu",
          3⟩) "t" =
        .ok ((some ([unitA, unitB, unitC].getD c default), c),
          .wellFormed ⟨[unitA, unitB, unitC],
            (c + 1) % [unitA, unitB, unitC].length, "t",
            [unitA, unitB, unitC].length⟩)) ∧
    (∃ lu' tp', fetchSeq (FileState.wellFormed ⟨[unitA, unitB, unitC], 0,
        "lu", 3⟩) "t" 6 =
      .ok (((List.range 6).map
          fun i => some ([unitA, unitB, unitC].getD
            (i % [unitA, unitB, unitC].length) default)),
        .wellFormed ⟨[unitA, unitB, unitC],
          6 % [unitA, unitB, unitC].length, lu', tp'⟩)) :=
  fetch_rotation_order [unitA, unitB, unitC] "lu" 3 "t" 6 (by decide)

/-- C10: frame property of `get_next_passage`.  On a stored non-empty pool
the call leaves the stored passage list itself unchanged (same units, same
order, same ids and contents); the saved file differs only in the rotation
cursor and the save metadata (`last_updated`, `total_passages`). -/
theorem fetch_frame_preserves_units (f : PoolFile) (now : String)
    (h : f.passages ≠ []) :
    getNextPassage (.wellFormed f) now =
      .ok ((some (f.passages.getD f.currentIndex default), f.currentIndex),
        .wellFormed ⟨f.passages, (f.currentIndex + 1) % f.passages.length,
          now, f.passages.length⟩) :=
  getNextPassage_step f.passages f.currentIndex f.lastUpdated
    f.totalPassages now h

/-- C10 (witness): a concrete fetch whose saved file keeps the passage list. -/
theorem fetch_frame_witness :
    getNextPassage (.wellFormed ⟨[unitA, unitB], 1, "old", 9⟩) "t" =
      .ok ((some (([unitA, unitB] : List LearningUnit).getD 1 default), 1),
        .wellFormed ⟨[unitA, unitB], (1 + 1) % [unitA, unitB].length, "t",
          [unitA, unitB].length⟩) :=
  fetch_frame_preserves_units ⟨[unitA, unitB], 1, "old", 9⟩ "t" (by decide)

/-- C3: replacement slot at capacity.  On a stored pool whose length equals
the (positive) capacity, `add_or_replace_passage` overwrites exactly the
slot `(cursor + len - 1) % len` with the stamped new unit, leaves every
other slot unchanged, and saves the cursor unchanged. -/
theorem replace_slot_at_capacity (cap : Nat) (us : List LearningUnit)
    (c : Nat) (lu : String) (tp : Nat) (draft : LearningUnit) (now : String)
    (hlen : us.length = cap) (hpos : 0 < cap) :
    (∃ newId, addOrReplacePassageCap cap (.wellFormed ⟨us, c, lu, tp⟩)
        draft now =
      .ok (newId, .wellFormed
        ⟨us.set ((c + us.length - 1) % us.length)
            { draft with
              createdAt := now,
              id := newId },
          c, now, us.length⟩)) ∧
    (∀ (newRec : LearningUnit) (j : Nat), j < us.length →
      j ≠ (c + us.length - 1) % us.length →
      (us.set ((c + us.length - 1) % us.length) newRec).getD j default =
        us.getD j default) := by
  constructor
  · exact ⟨(us.headD default).id + cap,
      addOrReplace_step_full cap us c lu tp draft now hlen hpos⟩
  · intro newRec j _ hj
    exact getD_set_ne us _ j newRec (fun e => hj e.symm)

/-- C3 (witness): capacity 3, pool `[A, B, C]`, cursor 1 — inserting `D`
replaces slot `(1 + 3 - 1) % 3 = 0`. -/
theorem replace_slot_at_capacity_witness :
    (∃ newId, addOrReplacePassageCap 3
        (.wellFormed ⟨[unitA, unitB, unitC], 1, "lu", 3⟩)
        (poolUnit "D" "" 0) "tD" =
      .ok (newId, .wellFormed
        ⟨[unitA, unitB, unitC].set
            ((1 + [unitA, unitB, unitC].length - 1) %
              [unitA, unitB, unitC].length)
            { poolUnit "D" "" 0 with
              createdAt := "tD",
              id := newId },
          1, "tD", [unitA, unitB, unitC].length⟩)) ∧
    (∀ (newRec : LearningUnit) (j : Nat),
      j < [unitA, unitB, unitC].length →
      j ≠ (1 + [unitA, unitB, unitC].length - 1) %
        [unitA, unitB, unitC].length →
      ([unitA, unitB, unitC].set
          ((1 + [unitA, unitB, unitC].length - 1) %
            [unitA, unitB, unitC].length) newRec).getD j default =
        [unitA, unitB, unitC].getD j default) :=
  replace_slot_at_capacity 3 [unitA, unitB, unitC] 1 "lu" 3
    (poolUnit "D" "" 0) "tD" (by decide) (by decide)

/-- C5 (counterexample): on the full capacity-5 pool with ids `1 … 5` and
cursor 0, the inserted unit receives id `passages[0].id + 5 = 6`, while the
replaced unit — the one in slot `(0 + 5 - 1) % 5 = 4`, id 5 — would have
demanded id `5 + 5 = 10` under the claim's rule. -/
theorem replacement_id_cex :
    (∃ fs', addOrReplacePassage (.wellFormed ⟨fullPool5, 0, "t5", 5⟩)
        (poolUnit "U6" "" 0) "t6" = .ok (6, fs')) ∧
    (fullPool5.getD ((0 + fullPool5.length - 1) % fullPool5.length)
        default).id + MAX_PASSAGES = 10 ∧
    (6 : Nat) ≠ 10 := by
  refine ⟨⟨_, rfl⟩, by decide, by decide⟩

/-- C5 (amended): on a stored full pool the inserted unit's id equals the
id of the unit currently in slot 0 plus the capacity.  This coincides with
"replaced unit's id + capacity" only when the replaced slot is slot 0
(cursor ≡ 1 mod size), and ids are not monotonic across generations in
general (see the counterexample). -/
theorem replacement_id_amended (cap : Nat) (us : List LearningUnit)
    (c : Nat) (lu : String) (tp : Nat) (draft : LearningUnit) (now : String)
    (hlen : us.length = cap) (hpos : 0 < cap) :
    ∃ fs', addOrReplacePassageCap cap (.wellFormed ⟨us, c, lu, tp⟩) draft
        now = .ok ((us.headD default).id + cap, fs') :=
  ⟨_, addOrReplace_step_full cap us c lu tp draft now hlen hpos⟩

/-- C5 (witness): the amended id rule on the concrete full pool. -/
theorem replacement_id_amended_witness :
    ∃ fs', addOrReplacePassageCap 5 (.wellFormed ⟨fullPool5, 0, "t5", 5⟩)
        (poolUnit "U6" "" 0) "t6" =
      .ok ((fullPool5.headD default).id + 5, fs') :=
  replacement_id_amended 5 fullPool5 0 "t5" 5 (poolUnit "U6" "" 0) "t6"
    (by decide) (by decide)

/-- C4: end-to-end scenario at capacity 5.  Fetching from the empty
(absent) store returns `None`; five inserts receive ids 1 … 5; the next
fetch returns `U1` and saves cursor 1; inserting `U6` into the full pool
with cursor 1 replaces slot `(1 + 5 - 1) % 5 = 0` (i.e. `U1`) and receives
id 6; the following six fetches yield `U2, U3, U4, U5, U6, U2`. -/
theorem end_to_end_capacity5 :
    getNextPassage FileState.absent "t0" = .ok ((none, 0), .absent) ∧
    addOrReplacePassage .absent (poolUnit "U1" "" 0) "t1" =
      .ok (1, .wellFormed ⟨[u1], 0, "t1", 1⟩) ∧
    addOrReplacePassage (.wellFormed ⟨[u1], 0, "t1", 1⟩)
        (poolUnit "U2" "" 0) "t2" =
      .ok (2, .wellFormed ⟨[u1, u2], 0, "t2", 2⟩) ∧
    addOrReplacePassage (.wellFormed ⟨[u1, u2], 0, "t2", 2⟩)
        (poolUnit "U3" "" 0) "t3" =
      .ok (3, .wellFormed ⟨[u1, u2, u3], 0, "t3", 3⟩) ∧
    addOrReplacePassage (.wellFormed ⟨[u1, u2, u3], 0, "t3", 3⟩)
        (poolUnit "U4" "" 0) "t4" =
      .ok (4, .wellFormed ⟨[u1, u2, u3, u4], 0, "t4", 4⟩) ∧
    addOrReplacePassage (.wellFormed ⟨[u1, u2, u3, u4], 0, "t4", 4⟩)
        (poolUnit "U5" "" 0) "t5" =
      .ok (5, .wellFormed ⟨fullPool5, 0, "t5", 5⟩) ∧
    getNextPassage (.wellFormed ⟨fullPool5, 0, "t5", 5⟩) "tf" =
      .ok ((some u1, 0), .wellFormed ⟨fullPool5, 1, "tf", 5⟩) ∧
    addOrReplacePassage (.wellFormed ⟨fullPool5, 1, "tf", 5⟩)
        (poolUnit "U6" "" 0) "t6" =
      .ok (6, .wellFormed ⟨pool6, 1, "t6", 5⟩) ∧
    fetchSeq (.wellFormed ⟨pool6, 1, "t6", 5⟩) "tg" 6 =
      .ok ([some u2, some u3, some u4, some u5, some u6, some u2],
        .wellFormed ⟨pool6, 2, "tg", 5⟩) :=
  ⟨rfl, rfl, rfl, rfl, rfl, rfl, rfl, rfl, rfl⟩
